import Mathlib

/-!
Shallow embedding of the Cpk calculator's core (src/app.py): the statistics
engine (`summarize`, `compute_cpk`) and the direct-input token parser.

Conventions of the embedding:
* Floating-point numbers are modelled as exact rationals (`ℚ`); a float that
  may be NaN, and an optional spec limit that may be `None`, are both
  modelled as `Option ℚ` with `none` for NaN/None (the source treats the two
  identically: `sigma is None or np.isnan(sigma)`, and
  `usl is not None and not pd.isna(usl)`).
* The standard deviation is a real square root, so the `std` field lives in
  `Option ℝ` and `summarize` is noncomputable exactly there.
-/

namespace CpkCalc

/-- The summary record returned by `summarize` (src/app.py lines 51-62):
a dict with keys `count`, `mean`, `std`, `min`, `max`, where every
statistical field may be the NaN sentinel (`none` here). -/
structure Summary where
  count : ℕ
  mean : Option ℚ
  std : Option ℝ
  min : Option ℚ
  max : Option ℚ

/-- Arithmetic mean of a list, `np.mean(arr)` (junk value `0` on `[]`,
where the source never evaluates it). -/
def listMean (l : List ℚ) : ℚ := l.sum / l.length

/-- Sample variance with divisor `n - 1` (`ddof=1`), the square of
`np.std(arr, ddof=1)` (junk on lists of length ≤ 1, where the source
guards it away). -/
def sampleVar (l : List ℚ) : ℚ :=
  (l.map fun x => (x - listMean l) ^ 2).sum / ((l.length : ℚ) - 1)

/-- Sample standard deviation `np.std(arr, ddof=1)`: the real square root
of the Bessel-corrected variance. -/
noncomputable def sampleStd (l : List ℚ) : ℝ :=
  Real.sqrt ((sampleVar l : ℚ) : ℝ)

/-- Embedding of `summarize(values)` (src/app.py lines 51-62).
The input models `np.asarray(values, dtype=float)`: a list of floats in
which `none` is a NaN entry; the source first drops the NaN entries
(`arr = arr[~np.isnan(arr)]`, here `List.filterMap id`), then branches on
emptiness exactly as the Python does. -/
noncomputable def summarize (values : List (Option ℚ)) : Summary :=
  let arr := values.filterMap id
  if arr.length = 0 then
    { count := 0, mean := none, std := none, min := none, max := none }
  else
    { count := arr.length
      mean := some (listMean arr)
      std := if 1 < arr.length then some (sampleStd arr) else none
      min := arr.min?
      max := arr.max? }

/-- Embedding of `compute_cpk(mean, sigma, usl, lsl)` (src/app.py lines
37-48), generic over the ordered field so it can be read back both at `ℚ`
(the spec-limit layer) and at `ℝ` (where the app feeds in the standard
deviation). `sigma = none` models both `sigma is None` and `np.isnan(sigma)`;
`usl`/`lsl` being `none` models both `None` and `pd.isna`. The `vals` list
is built in the source's order (USL side first), and `np.min(vals)` on the
possibly-empty list together with the `if not vals` guard is `List.min?`. -/
def compute_cpk {α : Type} [LinearOrderedField α]
    (mean : α) (sigma usl lsl : Option α) : Option α :=
  match sigma with
  | none => none
  | some s =>
    if s ≤ 0 then none
    else
      let vals : List α :=
        (match usl with
         | some u => [(u - mean) / (3 * s)]
         | none => []) ++
        (match lsl with
         | some l => [(mean - l) / (3 * s)]
         | none => [])
      vals.min?

/-- The app-level call site `compute_cpk(stats["mean"], stats["std"], usl, lsl)`
(src/app.py line 129). When `mean` is the NaN sentinel (which the engine
produces only together with a NaN `std`), every candidate value the source
computes is NaN and `np.min` of NaNs is NaN, so the result is the sentinel. -/
noncomputable def cpkFromStats (s : Summary) (usl lsl : Option ℝ) : Option ℝ :=
  match s.mean with
  | none => none
  | some m => compute_cpk (m : ℝ) s.std usl lsl

/-! The direct-input token parser (src/app.py lines 119-120):
`tokens = [t.strip() for t in raw.replace("\n", ",").split(",") if t.strip()]`
`values = pd.to_numeric(pd.Series(tokens), errors="coerce").to_numpy()`.
Strings are embedded as `List Char`. -/

/-- The character map performed by `raw.replace("\n", ",")`: the pattern and
replacement are single characters, so the replacement is pointwise. -/
def toComma (c : Char) : Char := if c = '\n' then ',' else c

/-- Python's `str.strip()`: drop whitespace from both ends. -/
def trim (cs : List Char) : List Char :=
  ((cs.dropWhile Char.isWhitespace).reverse.dropWhile Char.isWhitespace).reverse

/-- The token list comprehension of src/app.py line 119: replace newlines by
commas, split on commas, and keep the stripped form of every token whose
stripped form is nonempty. -/
def tokenize (raw : List Char) : List (List Char) :=
  ((raw.map toComma).splitOn ',').filterMap
    fun t => if trim t = [] then none else some (trim t)

/-- Value of a digit string read in base 10. -/
def digitsToNat (cs : List Char) : ℕ :=
  cs.foldl (fun acc c => 10 * acc + (c.toNat - 48)) 0

/-- Modelled from the spec: the numeric conversion attempted on each trimmed
token ("attempt numeric conversion on each remaining token"); in the source
this conversion is performed by the external library call
`pd.to_numeric(..., errors="coerce")`, whose code is not part of this
repository. The model accepts an unsigned decimal literal: digits with at
most one decimal point and at least one digit. -/
def parseUnsigned (cs : List Char) : Option ℚ :=
  match cs.splitOn '.' with
  | [as] =>
    if !as.isEmpty && as.all Char.isDigit then
      some (digitsToNat as : ℚ)
    else none
  | [as, bs] =>
    if (!as.isEmpty || !bs.isEmpty) && as.all Char.isDigit && bs.all Char.isDigit then
      some ((digitsToNat as : ℚ) + (digitsToNat bs : ℚ) / (10 : ℚ) ^ bs.length)
    else none
  | _ => none

/-- Modelled from the spec: numeric conversion of a token, with an optional
leading sign; a token that fails to convert becomes the "missing" marker
`none` (`errors="coerce"` turns failures into NaN rather than raising). -/
def parseNumber (cs : List Char) : Option ℚ :=
  match cs with
  | '-' :: rest => (parseUnsigned rest).map fun q => -q
  | '+' :: rest => parseUnsigned rest
  | _ => parseUnsigned cs

/-- The float array `pd.to_numeric(pd.Series(tokens), errors="coerce")`:
one entry per token, NaN (`none`) where conversion failed. -/
def parsedValues (raw : List Char) : List (Option ℚ) :=
  (tokenize raw).map parseNumber

/-- The Measurement Sequence of the spec: the parsed values with the
"missing" markers excluded (the exclusion the engine performs on entry). -/
def measurementSeq (raw : List Char) : List ℚ :=
  (parsedValues raw).filterMap id

/-! Helper lemmas about `List.min?` and `List.max?` (the `np.min`/`np.max`
of a nonempty array): the result is a member and a bound. -/

lemma foldl_min_spec {α : Type} [LinearOrder α] (as : List α) (a : α) :
    as.foldl min a ∈ a :: as ∧ ∀ x ∈ a :: as, as.foldl min a ≤ x := by
  induction as generalizing a with
  | nil => simp
  | cons b bs ih =>
    obtain ⟨hmem, hle⟩ := ih (min a b)
    have hfold : (b :: bs).foldl min a = bs.foldl min (min a b) := rfl
    constructor
    · rw [hfold]
      rcases List.mem_cons.mp hmem with h | h
      · rcases min_choice a b with hm | hm
        · rw [h, hm]; exact List.mem_cons_self _ _
        · rw [h, hm]; exact List.mem_cons_of_mem _ (List.mem_cons_self _ _)
      · exact List.mem_cons_of_mem _ (List.mem_cons_of_mem _ h)
    · intro x hx
      rw [hfold]
      have hmin : bs.foldl min (min a b) ≤ min a b :=
        hle _ (List.mem_cons_self _ _)
      rcases List.mem_cons.mp hx with h | hx'
      · exact h ▸ hmin.trans (min_le_left _ _)
      rcases List.mem_cons.mp hx' with h | h
      · exact h ▸ hmin.trans (min_le_right _ _)
      · exact hle _ (List.mem_cons_of_mem _ h)

lemma foldl_max_spec {α : Type} [LinearOrder α] (as : List α) (a : α) :
    as.foldl max a ∈ a :: as ∧ ∀ x ∈ a :: as, x ≤ as.foldl max a := by
  induction as generalizing a with
  | nil => simp
  | cons b bs ih =>
    obtain ⟨hmem, hle⟩ := ih (max a b)
    have hfold : (b :: bs).foldl max a = bs.foldl max (max a b) := rfl
    constructor
    · rw [hfold]
      rcases List.mem_cons.mp hmem with h | h
      · rcases max_choice a b with hm | hm
        · rw [h, hm]; exact List.mem_cons_self _ _
        · rw [h, hm]; exact List.mem_cons_of_mem _ (List.mem_cons_self _ _)
      · exact List.mem_cons_of_mem _ (List.mem_cons_of_mem _ h)
    · intro x hx
      rw [hfold]
      have hmax : max a b ≤ bs.foldl max (max a b) :=
        hle _ (List.mem_cons_self _ _)
      rcases List.mem_cons.mp hx with h | hx'
      · exact h ▸ (le_max_left a b).trans hmax
      rcases List.mem_cons.mp hx' with h | h
      · exact h ▸ (le_max_right a b).trans hmax
      · exact hle _ (List.mem_cons_of_mem _ h)

lemma min?_spec {α : Type} [LinearOrder α] {l : List α} (hne : l ≠ []) :
    ∃ m, l.min? = some m ∧ m ∈ l ∧ ∀ x ∈ l, m ≤ x := by
  cases l with
  | nil => exact absurd rfl hne
  | cons a as =>
    exact ⟨as.foldl min a, rfl, (foldl_min_spec as a).1, (foldl_min_spec as a).2⟩

lemma max?_spec {α : Type} [LinearOrder α] {l : List α} (hne : l ≠ []) :
    ∃ m, l.max? = some m ∧ m ∈ l ∧ ∀ x ∈ l, x ≤ m := by
  cases l with
  | nil => exact absurd rfl hne
  | cons a as =>
    exact ⟨as.foldl max a, rfl, (foldl_max_spec as a).1, (foldl_max_spec as a).2⟩

lemma min?_perm {α : Type} [LinearOrder α] {l l' : List α} (hp : l.Perm l') :
    l.min? = l'.min? := by
  cases l with
  | nil => rw [List.nil_perm.mp hp]
  | cons a as =>
    have hne : (a :: as) ≠ ([] : List α) := by simp
    have hne' : l' ≠ [] := by
      intro h; rw [h] at hp; exact hne (List.perm_nil.mp hp)
    obtain ⟨m, hm, hmem, hle⟩ := min?_spec hne
    obtain ⟨m', hm', hmem', hle'⟩ := min?_spec hne'
    rw [hm, hm']
    exact congrArg some
      (le_antisymm (hle m' (hp.mem_iff.mpr hmem')) (hle' m (hp.mem_iff.mp hmem)))

lemma max?_perm {α : Type} [LinearOrder α] {l l' : List α} (hp : l.Perm l') :
    l.max? = l'.max? := by
  cases l with
  | nil => rw [List.nil_perm.mp hp]
  | cons a as =>
    have hne : (a :: as) ≠ ([] : List α) := by simp
    have hne' : l' ≠ [] := by
      intro h; rw [h] at hp; exact hne (List.perm_nil.mp hp)
    obtain ⟨m, hm, hmem, hle⟩ := max?_spec hne
    obtain ⟨m', hm', hmem', hle'⟩ := max?_spec hne'
    rw [hm, hm']
    exact congrArg some
      (le_antisymm (hle' m (hp.mem_iff.mp hmem)) (hle m' (hp.mem_iff.mpr hmem')))

/-- Unfolding of `summarize` on an input whose non-NaN part is nonempty. -/
lemma summarize_pos {values : List (Option ℚ)} (h : values.filterMap id ≠ []) :
    summarize values =
      { count := (values.filterMap id).length
        mean := some (listMean (values.filterMap id))
        std := if 1 < (values.filterMap id).length
               then some (sampleStd (values.filterMap id)) else none
        min := (values.filterMap id).min?
        max := (values.filterMap id).max? } := by
  simp only [summarize]
  rw [if_neg]
  intro hc
  exact h (List.length_eq_zero.mp hc)

/-- Dropping the NaN markers from a list that has none is the identity. -/
lemma filterMap_id_map_some (l : List ℚ) : (l.map some).filterMap id = l := by
  rw [List.filterMap_map]
  simp

/-! The claim theorems. -/

/-- C1: for every mean and every sigma > 0, with both spec limits supplied
`compute_cpk` returns `min ((usl - mean)/(3*sigma)) ((mean - lsl)/(3*sigma))`,
and with exactly one limit supplied it returns that one-sided value. -/
theorem compute_cpk_limits (mean s u l : ℚ) (h : 0 < s) :
    compute_cpk mean (some s) (some u) (some l) =
      some (min ((u - mean) / (3 * s)) ((mean - l) / (3 * s))) ∧
    compute_cpk mean (some s) (some u) none = some ((u - mean) / (3 * s)) ∧
    compute_cpk mean (some s) none (some l) = some ((mean - l) / (3 * s)) := by
  refine ⟨?_, ?_, ?_⟩ <;> simp [compute_cpk, List.min?, h.not_le]

/-- Witness for C1 at the spec's example `mean=0.05, sigma=0.1, usl=0.3,
lsl=-0.3` (and at its one-sided variants). -/
theorem compute_cpk_limits_witness :
    (0 : ℚ) < 1/10 ∧
    (compute_cpk (1/20 : ℚ) (some (1/10)) (some (3/10)) (some (-3/10)) =
      some (min ((3/10 - 1/20) / (3 * (1/10))) ((1/20 - (-3/10)) / (3 * (1/10)))) ∧
    compute_cpk (1/20 : ℚ) (some (1/10)) (some (3/10)) none =
      some ((3/10 - 1/20) / (3 * (1/10))) ∧
    compute_cpk (1/20 : ℚ) (some (1/10)) none (some (-3/10)) =
      some ((1/20 - (-3/10)) / (3 * (1/10)))) :=
  ⟨by norm_num, compute_cpk_limits (1/20) (1/10) (3/10) (-3/10) (by norm_num)⟩

/-- C3: for every mean, usl and lsl, a sigma that is absent or NaN (both
modelled by `none`) or ≤ 0 makes `compute_cpk` return the undefined
sentinel. -/
theorem compute_cpk_sigma_undefined (mean s : ℚ) (usl lsl : Option ℚ)
    (h : s ≤ 0) :
    compute_cpk mean none usl lsl = none ∧
    compute_cpk mean (some s) usl lsl = none := by
  exact ⟨rfl, by simp [compute_cpk, h]⟩

/-- Witness for C3 at the spec's example `mean=0, sigma=0, usl=0.3,
lsl=-0.3`. -/
theorem compute_cpk_sigma_undefined_witness :
    (0 : ℚ) ≤ 0 ∧
    (compute_cpk (0 : ℚ) none (some (3/10)) (some (-3/10)) = none ∧
     compute_cpk (0 : ℚ) (some 0) (some (3/10)) (some (-3/10)) = none) :=
  ⟨le_refl 0, compute_cpk_sigma_undefined 0 0 (some (3/10)) (some (-3/10)) (le_refl 0)⟩

/-- C4: with neither limit present `compute_cpk` returns the undefined
sentinel, and on every input whatsoever it is total: each branch yields a
value or the sentinel (never an exception). -/
theorem compute_cpk_no_limits_and_total :
    (∀ (mean : ℚ) (sigma : Option ℚ), compute_cpk mean sigma none none = none) ∧
    (∀ (mean : ℚ) (sigma usl lsl : Option ℚ),
      compute_cpk mean sigma usl lsl = none ∨
        ∃ v, compute_cpk mean sigma usl lsl = some v) := by
  constructor
  · intro mean sigma
    cases sigma with
    | none => rfl
    | some s =>
      by_cases h : s ≤ 0 <;> simp [compute_cpk, h, List.min?]
  · intro mean sigma usl lsl
    cases h : compute_cpk mean sigma usl lsl with
    | none => exact Or.inl rfl
    | some v => exact Or.inr ⟨v, rfl⟩

/-- C5: `summarize` of the empty sequence is the well-formed record with
count 0 and every statistical field the undefined sentinel. -/
theorem summarize_empty : summarize [] = ⟨0, none, none, none, none⟩ := rfl

/-- C6: `summarize` of a one-element sequence has count 1, mean, min and
max equal to that element, and undefined std. -/
theorem summarize_singleton (x : ℚ) :
    summarize [some x] = ⟨1, some x, none, some x, some x⟩ := by
  simp [summarize, listMean, List.min?, List.max?]

/-- C7: on a sequence of length at least 2, `summarize` returns the
arithmetic mean, the Bessel-corrected sample standard deviation (divisor
n - 1), and the extrema; in particular on `[1, 2, 3]` it returns count 3,
mean 2, std 1, min 1, max 3. -/
theorem summarize_stats :
    (∀ l : List ℚ, 2 ≤ l.length →
      (summarize (l.map some)).count = l.length ∧
      (summarize (l.map some)).mean = some (l.sum / l.length) ∧
      (summarize (l.map some)).std =
        some (Real.sqrt
          (((l.map fun x => (x - l.sum / l.length) ^ 2).sum / ((l.length : ℚ) - 1) : ℚ))) ∧
      (∃ a, (summarize (l.map some)).min = some a ∧ a ∈ l ∧ ∀ x ∈ l, a ≤ x) ∧
      (∃ b, (summarize (l.map some)).max = some b ∧ b ∈ l ∧ ∀ x ∈ l, x ≤ b)) ∧
    summarize [some 1, some 2, some 3] = ⟨3, some 2, some 1, some 1, some 3⟩ := by
  constructor
  · intro l hl
    have hne : l ≠ [] := by
      intro h
      rw [h] at hl
      exact absurd hl (by norm_num)
    have harr : (l.map some).filterMap id = l := filterMap_id_map_some l
    have hne' : (l.map some).filterMap id ≠ [] := by rw [harr]; exact hne
    rw [summarize_pos hne', harr]
    refine ⟨rfl, rfl, ?_, ?_, ?_⟩
    · rw [if_pos (by omega)]
      rfl
    · obtain ⟨a, ha, hamem, hale⟩ := min?_spec hne
      exact ⟨a, ha, hamem, hale⟩
    · obtain ⟨b, hb, hbmem, hble⟩ := max?_spec hne
      exact ⟨b, hb, hbmem, hble⟩
  · have : sampleStd [1, 2, 3] = 1 := by
      have hv : sampleVar [1, 2, 3] = 1 := by
        norm_num [sampleVar, listMean]
      rw [sampleStd, hv]
      norm_num
    simp [summarize, listMean, List.min?, List.max?, this]
    norm_num

/-- Witness for C7: the general statement instantiated at the spec's
example sequence `[1, 2, 3]`. -/
theorem summarize_stats_witness :
    2 ≤ ([1, 2, 3] : List ℚ).length ∧
    ((summarize (([1, 2, 3] : List ℚ).map some)).count = ([1, 2, 3] : List ℚ).length ∧
     (summarize (([1, 2, 3] : List ℚ).map some)).mean =
       some (([1, 2, 3] : List ℚ).sum / (([1, 2, 3] : List ℚ).length : ℚ)) ∧
     (summarize (([1, 2, 3] : List ℚ).map some)).std =
       some (Real.sqrt
         (((([1, 2, 3] : List ℚ).map
             fun x => (x - ([1, 2, 3] : List ℚ).sum / (([1, 2, 3] : List ℚ).length : ℚ)) ^ 2).sum /
           ((([1, 2, 3] : List ℚ).length : ℚ) - 1) : ℚ))) ∧
     (∃ a, (summarize (([1, 2, 3] : List ℚ).map some)).min = some a ∧
        a ∈ ([1, 2, 3] : List ℚ) ∧ ∀ x ∈ ([1, 2, 3] : List ℚ), a ≤ x) ∧
     (∃ b, (summarize (([1, 2, 3] : List ℚ).map some)).max = some b ∧
        b ∈ ([1, 2, 3] : List ℚ) ∧ ∀ x ∈ ([1, 2, 3] : List ℚ), x ≤ b)) :=
  ⟨by norm_num, summarize_stats.1 [1, 2, 3] (by norm_num)⟩

/-- C8: whenever the summary's count is at least 1, its fields satisfy
min ≤ mean ≤ max. -/
theorem summarize_min_le_mean_le_max (values : List (Option ℚ))
    (h : 1 ≤ (summarize values).count) :
    ∃ a μ b, (summarize values).min = some a ∧ (summarize values).mean = some μ ∧
      (summarize values).max = some b ∧ a ≤ μ ∧ μ ≤ b := by
  by_cases hne : values.filterMap id = []
  · exfalso
    simp [summarize, hne] at h
  · obtain ⟨a, ha, hamem, hale⟩ := min?_spec hne
    obtain ⟨b, hb, hbmem, hble⟩ := max?_spec hne
    have hlen : 0 < (values.filterMap id).length := List.length_pos.mpr hne
    have hlenQ : (0 : ℚ) < ((values.filterMap id).length : ℚ) := by
      exact_mod_cast hlen
    have h1 : ((values.filterMap id).length : ℚ) * a ≤ (values.filterMap id).sum := by
      have := List.card_nsmul_le_sum (values.filterMap id) a hale
      simpa [nsmul_eq_mul] using this
    have h2 : (values.filterMap id).sum ≤ ((values.filterMap id).length : ℚ) * b := by
      have := List.sum_le_card_nsmul (values.filterMap id) b hble
      simpa [nsmul_eq_mul] using this
    refine ⟨a, listMean (values.filterMap id), b, ?_, ?_, ?_, ?_, ?_⟩
    · rw [summarize_pos hne]; exact ha
    · rw [summarize_pos hne]
    · rw [summarize_pos hne]; exact hb
    · rw [listMean, le_div_iff₀ hlenQ, mul_comm]
      exact h1
    · rw [listMean, div_le_iff₀ hlenQ, mul_comm]
      exact h2

/-- Witness for C8 at the two-element sequence `[1, 2]`. -/
theorem summarize_min_le_mean_le_max_witness :
    1 ≤ (summarize [some (1 : ℚ), some 2]).count ∧
    (∃ a μ b, (summarize [some (1 : ℚ), some 2]).min = some a ∧
      (summarize [some (1 : ℚ), some 2]).mean = some μ ∧
      (summarize [some (1 : ℚ), some 2]).max = some b ∧ a ≤ μ ∧ μ ≤ b) :=
  ⟨by decide, summarize_min_le_mean_le_max [some 1, some 2] (by decide)⟩

/-- C9: permuting the measurement sequence leaves the whole summary record
unchanged, and therefore also the Cpk value the app derives from it. -/
theorem summarize_perm_invariant (l l' : List (Option ℚ)) (hp : l.Perm l') :
    summarize l = summarize l' ∧
    ∀ usl lsl : Option ℝ,
      cpkFromStats (summarize l) usl lsl = cpkFromStats (summarize l') usl lsl := by
  have harr : (l.filterMap id).Perm (l'.filterMap id) := hp.filterMap id
  have hmain : summarize l = summarize l' := by
    by_cases hne : l.filterMap id = []
    · have hne' : l'.filterMap id = [] := by
        rw [hne] at harr
        exact (List.nil_perm.mp harr)
      simp [summarize, hne, hne']
    · have hne' : l'.filterMap id ≠ [] := by
        intro h
        rw [h] at harr
        exact hne (List.perm_nil.mp harr)
      have hmean : listMean (l.filterMap id) = listMean (l'.filterMap id) := by
        rw [listMean, listMean, harr.sum_eq, harr.length_eq]
      have hvar : sampleVar (l.filterMap id) = sampleVar (l'.filterMap id) := by
        rw [sampleVar, sampleVar, hmean, harr.length_eq,
          (harr.map fun x => (x - listMean (l'.filterMap id)) ^ 2).sum_eq]
      have hstd : sampleStd (l.filterMap id) = sampleStd (l'.filterMap id) := by
        rw [sampleStd, sampleStd, hvar]
      rw [summarize_pos hne, summarize_pos hne', Summary.mk.injEq]
      exact ⟨harr.length_eq, by rw [hmean], by rw [harr.length_eq, hstd],
        min?_perm harr, max?_perm harr⟩
  exact ⟨hmain, fun usl lsl => by rw [hmain]⟩

/-- Witness for C9 at the sequence `[1, 2]` and its transposition. -/
theorem summarize_perm_invariant_witness :
    ([some (1 : ℚ), some 2].Perm [some 2, some 1]) ∧
    (summarize [some (1 : ℚ), some 2] = summarize [some 2, some 1] ∧
     ∀ usl lsl : Option ℝ,
       cpkFromStats (summarize [some (1 : ℚ), some 2]) usl lsl =
         cpkFromStats (summarize [some 2, some 1]) usl lsl) :=
  ⟨List.Perm.swap _ _ _, summarize_perm_invariant _ _ (List.Perm.swap _ _ _)⟩

/-- C10: `summarize` first drops the NaN markers, so its result on any
input equals its result on the non-NaN subsequence, and the reported count
is the number of non-NaN entries. -/
theorem summarize_drops_nan (values : List (Option ℚ)) :
    summarize values = summarize ((values.filterMap id).map some) ∧
    (summarize values).count = (values.filterMap id).length := by
  have key : ((values.filterMap id).map some).filterMap id = values.filterMap id :=
    filterMap_id_map_some _
  constructor
  · simp only [summarize, key]
  · by_cases hne : values.filterMap id = []
    · simp [summarize, hne]
    · rw [summarize_pos hne]

/-- C2: the direct-input parser splits on newlines and commas, trims each
token, drops tokens that trim to empty, excludes tokens that fail numeric
conversion, preserves the order of the rest, and in particular maps
"1, 2,, abc ,3" to the sequence [1, 2, 3]. -/
theorem parser_tokens :
    (∀ raw : List Char,
      tokenize raw =
        (((raw.map toComma).splitOn ',').map trim).filter fun t => t ≠ []) ∧
    (∀ raw : List Char, measurementSeq raw = (tokenize raw).filterMap parseNumber) ∧
    measurementSeq ("1, 2,, abc ,3".toList) = [1, 2, 3] := by
  refine ⟨?_, ?_, by decide⟩
  · intro raw
    rw [tokenize]
    induction (raw.map toComma).splitOn ',' with
    | nil => rfl
    | cons a as ih =>
      by_cases h : trim a = []
      · simpa [h] using ih
      · simpa [h] using ih
  · intro raw
    rw [measurementSeq, parsedValues, List.filterMap_map]
    rfl

end CpkCalc
